import Mathlib

/-!
Verification of the glua-webhook admission pipeline.

This file shallowly embeds the script-execution and admission-decision
pipeline of the repository:

* `pkg/luarunner` (`RunScript`, `RunScriptsSequentially`): the sandbox
  executor and the sequential orchestrator.
* `pkg/scriptloader` (`LoadScriptsFromAnnotations`): resolution of the
  `glua.maurice.fr/scripts` annotation into a script map.
* `pkg/webhook` (`handleAdmissionRequest`, `createJSONPatch`): the
  admission decision maker and the change-description generator.

External collaborators (the gopher-lua interpreter, the glua translator,
`encoding/json`, and the Kubernetes ConfigMap store) are modelled as
abstract parameters bundled in structures (`Sem`, `K8sEnv`): theorems
quantify over them, so every result holds for any behaviour of those
collaborators.  Go byte slices are modelled as `List Nat`, Go maps as
association lists (quantified over iteration order), and Go errors as
`Except String`.
-/

namespace GluaWebhook

/-- Go `[]byte`. -/
abbrev Bytes := List Nat

/-- UTF-8 style encoding of a Go string into bytes (used only to build
concrete inputs in examples; scripts in the model are raw text). -/
def strToBytes (s : String) : Bytes := s.data.map Char.toNat

/-! ### Go string primitives

Go's `strings.Split` (single-character separator), `strings.TrimSpace`
and the built-in `<` on strings, re-implemented structurally over the
character list of a `String` so that they compute by kernel reduction. -/

/-- `strings.Split` on a single-character separator, over char lists. -/
def splitOnChar (sep : Char) : List Char → List (List Char)
  | [] => [[]]
  | c :: rest =>
    match splitOnChar sep rest with
    | [] => [[c]]
    | h :: t => if c = sep then [] :: h :: t else (c :: h) :: t

/-- `strings.Split s sep` for a one-character `sep`. -/
def splitStr (sep : Char) (s : String) : List String :=
  (splitOnChar sep s.data).map fun l => ⟨l⟩

/-- `strings.TrimSpace`, over char lists. -/
def trimChars (l : List Char) : List Char :=
  ((l.dropWhile Char.isWhitespace).reverse.dropWhile Char.isWhitespace).reverse

/-- `strings.TrimSpace`. -/
def trimStr (s : String) : String := ⟨trimChars s.data⟩

/-- Go's built-in `<` on strings: byte-wise lexicographic comparison
(on valid UTF-8, byte order agrees with code-point order, which is what
this compares). -/
def charsLt : List Char → List Char → Bool
  | [], [] => false
  | [], _ :: _ => true
  | _ :: _, [] => false
  | a :: as, b :: bs => if a < b then true else if b < a then false else charsLt as bs

/-- Go `s < t` on strings. -/
def strLt (s t : String) : Bool := charsLt s.data t.data

/-- The complement order used to state sortedness: `s ≤ t` iff not `t < s`. -/
def strLe (s t : String) : Prop := strLt t s = false

/-! ### The orchestrator's sort

`RunScriptsSequentially` sorts the script names with a double loop
(`for i; for j > i; if names[i] > names[j] swap`).  The inner loop with
a fixed `i` is `innerPass`: it threads the value currently sitting at
position `i` through the remaining positions, swapping whenever that
value compares greater.  The outer loop runs once per position, which
`selSortFuel` mirrors with the list length as fuel. -/

/-- One outer-loop iteration of the orchestrator's sort: returns the value
left at position `i` (the minimum) and the updated remainder. -/
def innerPass (x : String) : List String → String × List String
  | [] => (x, [])
  | y :: ys =>
    if strLt y x then
      ((innerPass y ys).1, x :: (innerPass y ys).2)
    else
      ((innerPass x ys).1, y :: (innerPass x ys).2)

/-- The outer loop of the orchestrator's sort; `fuel` counts remaining
outer-loop iterations (one per position). -/
def selSortFuel : Nat → List String → List String
  | 0, _ => []
  | _ + 1, [] => []
  | fuel + 1, x :: xs => (innerPass x xs).1 :: selSortFuel fuel (innerPass x xs).2

/-- The sorted script-name order of `RunScriptsSequentially`. -/
def sortStrings (l : List String) : List String := selSortFuel l.length l

/-! ### The sandbox executor (`RunScript`)

The gopher-lua interpreter and the glua translator are external to the
core (spec §1): they are modelled as an abstract semantics `Sem` over an
interpreter-state type `S`, a Lua-value type `V`, a Go-value type `J`
(what `encoding/json` unmarshals into) and a type-registry type `R`.
`RunScript` is then a faithful rendering of the source: fresh state via
`newState` (the `lua.NewState()` call), module preload, JSON unmarshal,
best-effort type registration, translation to Lua, `object` binding,
`DoString`, read-back of `object`, translation back and marshal. -/

structure Sem (S V J R : Type) where
  /-- `lua.NewState()`: a fresh interpreter instance. -/
  newState : S
  /-- `loadModules`: preloads the fixed glua module set. -/
  loadModules : S → S
  /-- `json.Unmarshal` into `interface{}`. -/
  unmarshal : Bytes → Except String J
  /-- `json.Marshal` of an unmarshalled/translated value (total there). -/
  marshal : J → Bytes
  /-- `json.Marshal` of the single-element replace-patch wrapper built
  around a value in `createJSONPatch`. -/
  marshalPatch : J → Bytes
  /-- `translator.ToLua`. -/
  toLua : S → J → Except String (S × V)
  /-- `L.SetGlobal`. -/
  setGlobal : S → String → V → S
  /-- `L.DoString`. -/
  doString : S → String → Except String S
  /-- `L.GetGlobal`. -/
  getGlobal : S → String → V
  /-- `translator.FromLua`. -/
  fromLua : S → V → Except String J
  /-- `typeRegistry.Register` (best effort; returned error ignored). -/
  registerType : R → J → R

/-- The mutable state of a `ScriptRunner` value across calls: only the
type registry is mutated (logger and translator are stateless). -/
structure ScriptRunnerState (R : Type) where
  typeRegistry : R
deriving DecidableEq

/-- `ScriptRunner.RunScript`: executes one script against one document in
a fresh interpreter instance, returning the updated runner state and the
resulting JSON bytes or an error. -/
def RunScript {S V J R : Type} (sem : Sem S V J R) (st : ScriptRunnerState R)
    (scriptName scriptContent : String) (objectJSON : Bytes) :
    ScriptRunnerState R × Except String Bytes :=
  let L := sem.loadModules sem.newState
  match sem.unmarshal objectJSON with
  | Except.error e => (st, Except.error ("failed to unmarshal JSON: " ++ e))
  | Except.ok obj =>
    let st1 : ScriptRunnerState R := ⟨sem.registerType st.typeRegistry obj⟩
    match sem.toLua L obj with
    | Except.error e => (st1, Except.error ("failed to convert to Lua: " ++ e))
    | Except.ok Lv =>
      let L2 := sem.setGlobal Lv.1 "object" Lv.2
      match sem.doString L2 scriptContent with
      | Except.error e => (st1, Except.error ("script execution failed: " ++ e))
      | Except.ok L3 =>
        match sem.fromLua L3 (sem.getGlobal L3 "object") with
        | Except.error e => (st1, Except.error ("failed to convert from Lua: " ++ e))
        | Except.ok goObj => (st1, Except.ok (sem.marshal goObj))

/-- The result component of `RunScript`, which depends only on the script
name, the script content and the input document (proved below). -/
def runScriptPure {S V J R : Type} (sem : Sem S V J R)
    (scriptName scriptContent : String) (objectJSON : Bytes) : Except String Bytes :=
  let L := sem.loadModules sem.newState
  match sem.unmarshal objectJSON with
  | Except.error e => Except.error ("failed to unmarshal JSON: " ++ e)
  | Except.ok obj =>
    match sem.toLua L obj with
    | Except.error e => Except.error ("failed to convert to Lua: " ++ e)
    | Except.ok Lv =>
      let L2 := sem.setGlobal Lv.1 "object" Lv.2
      match sem.doString L2 scriptContent with
      | Except.error e => Except.error ("script execution failed: " ++ e)
      | Except.ok L3 =>
        match sem.fromLua L3 (sem.getGlobal L3 "object") with
        | Except.error e => Except.error ("failed to convert from Lua: " ++ e)
        | Except.ok goObj => Except.ok (sem.marshal goObj)

/-- The loop body of `RunScriptsSequentially`: runs the named scripts in
the given order, feeding each successful output forward and keeping the
current document on failure; also counts successes and failures. -/
def runLoop {S V J R : Type} (sem : Sem S V J R) (get : String → String) :
    ScriptRunnerState R → List String → Bytes → ScriptRunnerState R × Bytes × Nat × Nat
  | st, [], cur => (st, cur, 0, 0)
  | st, n :: ns, cur =>
    match RunScript sem st n (get n) cur with
    | (st1, Except.error _) =>
      let rest := runLoop sem get st1 ns cur
      (rest.1, rest.2.1, rest.2.2.1, rest.2.2.2 + 1)
    | (st1, Except.ok res) =>
      let rest := runLoop sem get st1 ns res
      (rest.1, rest.2.1, rest.2.2.1 + 1, rest.2.2.2)

/-- `ScriptRunner.RunScriptsSequentially`: sorts the script names, runs
them in order with fail-open chaining, and returns `(state, document,
error)` where the error is always `nil` (`none`). -/
def RunScriptsSequentially {S V J R : Type} (sem : Sem S V J R)
    (st : ScriptRunnerState R) (scripts : List (String × String)) (objectJSON : Bytes) :
    ScriptRunnerState R × Bytes × Option String :=
  let sortedNames := sortStrings (scripts.map Prod.fst)
  let r := runLoop sem (fun n => (scripts.lookup n).getD "") st sortedNames objectJSON
  (r.1, r.2.1, none)

/-- The success/failure tallies of a `RunScriptsSequentially` call
(`successCount`, `failCount` in the source). -/
def runOutcomeCounts {S V J R : Type} (sem : Sem S V J R)
    (st : ScriptRunnerState R) (scripts : List (String × String)) (objectJSON : Bytes) :
    Nat × Nat :=
  (runLoop sem (fun n => (scripts.lookup n).getD "") st
    (sortStrings (scripts.map Prod.fst)) objectJSON).2.2

/-- State-free document chaining: the document after running the given
names in order (same chaining as `runLoop`, proved below). -/
def runDocs {S V J R : Type} (sem : Sem S V J R) (get : String → String) :
    List String → Bytes → Bytes
  | [], cur => cur
  | n :: ns, cur =>
    match runScriptPure sem n (get n) cur with
    | Except.error _ => runDocs sem get ns cur
    | Except.ok res => runDocs sem get ns res

/-- The document fed to the `i`-th script (0-based) of an ordered run;
at `i = names.length` it is the final document. -/
def fedDoc {S V J R : Type} (sem : Sem S V J R) (get : String → String)
    (names : List String) (objectJSON : Bytes) (i : Nat) : Bytes :=
  runDocs sem get (names.take i) objectJSON

/-! ### The script loader (`pkg/scriptloader`)

The Kubernetes ConfigMap store is an external collaborator: it is
modelled as `K8sEnv.getConfigMap`, returning a ConfigMap's `Data` map
(as an association list) or an error.  Annotations are the object's
annotation map (`none` models a `nil` map). -/

/-- The `glua.maurice.fr/scripts` annotation key. -/
def annotationScripts : String := "glua.maurice.fr/scripts"

/-- The external ConfigMap store (`clientset.CoreV1().ConfigMaps(ns).Get`). -/
structure K8sEnv where
  getConfigMap : String → String → Except String (List (String × String))

/-- Go map assignment `m[k] = v` on an association list. -/
def mapInsert (l : List (String × String)) (k v : String) : List (String × String) :=
  if (l.lookup k).isSome then l.map (fun p => if p.1 = k then (k, v) else p)
  else l ++ [(k, v)]

/-- The reference loop of `LoadScriptsFromAnnotations`: walks the
comma-separated references, skipping blank and malformed ones, fetching
each ConfigMap (any fetch error is fatal), and keeping non-empty
`script.lua` contents under the key `namespace/name`. -/
def loadRefs (env : K8sEnv) :
    List String → List (String × String) → Except String (List (String × String))
  | [], acc => Except.ok acc
  | ref :: rest, acc =>
    let r := trimStr ref
    if r = "" then loadRefs env rest acc
    else
      match splitStr '/' r with
      | [p0, p1] =>
        let ns := trimStr p0
        let name := trimStr p1
        match env.getConfigMap ns name with
        | Except.error e =>
          Except.error ("failed to fetch ConfigMap " ++ ns ++ "/" ++ name ++ ": " ++ e)
        | Except.ok data =>
          match data.lookup "script.lua" with
          | none => loadRefs env rest acc
          | some content =>
            if content = "" then loadRefs env rest acc
            else loadRefs env rest (mapInsert acc (ns ++ "/" ++ name) content)
      | _ => loadRefs env rest acc

/-- `ScriptLoader.LoadScriptsFromAnnotations`: resolves the scripts
annotation into a `scriptName ↦ scriptContent` map.  `annotations =
none` models a `nil` annotation map. -/
def loadScriptsFromAnnotations (env : K8sEnv)
    (annotations : Option (List (String × String))) :
    Except String (List (String × String)) :=
  match annotations with
  | none => Except.ok []
  | some ann =>
    match ann.lookup annotationScripts with
    | none => Except.ok []
    | some scriptsAnnotation => loadRefs env (splitStr ',' scriptsAnnotation) []

/-! ### The admission decision maker (`pkg/webhook`) -/

/-- `admissionv1.PatchTypeJSONPatch`. -/
inductive PatchType where
  | JSONPatch
deriving DecidableEq

/-- The fields of `admissionv1.AdmissionResponse` that the handler sets:
`Allowed`, `Result.Message`, `PatchType`, `Patch`. -/
structure AdmissionResponse where
  allowed : Bool
  message : Option String
  patchType : Option PatchType
  patch : Option Bytes
deriving DecidableEq

/-- The handler's default response: allow, no message, no patch. -/
def defaultAllowResponse : AdmissionResponse :=
  { allowed := true, message := none, patchType := none, patch := none }

/-- `createJSONPatch`: unmarshals both documents and marshals a
single-element JSON-patch array holding a `replace` operation at path
`"/"` whose value is the modified object. -/
def createJSONPatch {S V J R : Type} (sem : Sem S V J R) (original modified : Bytes) :
    Except String Bytes :=
  match sem.unmarshal original with
  | Except.error e => Except.error ("failed to unmarshal original: " ++ e)
  | Except.ok _ =>
    match sem.unmarshal modified with
    | Except.error e => Except.error ("failed to unmarshal modified: " ++ e)
    | Except.ok modifiedObj => Except.ok (sem.marshalPatch modifiedObj)

/-- `WebhookHandler.handleAdmissionRequest`.  `unmarshalMeta` models the
`json.Unmarshal` of the raw object into the metadata struct, yielding
the annotation map (`encoding/json` is external); `webhookType` is the
handler's `"mutating"`/`"validating"` configuration; `st` is the script
runner's state and `raw` is `req.Object.Raw`. -/
def handleAdmissionRequest {S V J R : Type} (sem : Sem S V J R) (env : K8sEnv)
    (unmarshalMeta : Bytes → Except String (Option (List (String × String))))
    (webhookType : String) (st : ScriptRunnerState R) (raw : Bytes) :
    ScriptRunnerState R × AdmissionResponse :=
  match unmarshalMeta raw with
  | Except.error e =>
    (st, { allowed := false, message := some ("failed to parse object metadata: " ++ e),
           patchType := none, patch := none })
  | Except.ok annotations =>
    match loadScriptsFromAnnotations env annotations with
    | Except.error e =>
      (st, { allowed := false, message := some ("failed to load scripts: " ++ e),
             patchType := none, patch := none })
    | Except.ok scripts =>
      if scripts.length = 0 then (st, defaultAllowResponse)
      else if webhookType = "validating" then
        let r := RunScriptsSequentially sem st scripts raw
        (r.1, { allowed := true, message := none, patchType := none, patch := none })
      else
        match RunScriptsSequentially sem st scripts raw with
        | (st1, _, some e) =>
          (st1, { allowed := false, message := some ("failed to execute scripts: " ++ e),
                  patchType := none, patch := none })
        | (st1, modifiedJSON, none) =>
          if modifiedJSON ≠ raw then
            match createJSONPatch sem raw modifiedJSON with
            | Except.error e =>
              (st1, { allowed := false, message := some ("failed to create patch: " ++ e),
                      patchType := some PatchType.JSONPatch, patch := none })
            | Except.ok patchBytes =>
              (st1, { allowed := true, message := none,
                      patchType := some PatchType.JSONPatch, patch := some patchBytes })
          else (st1, defaultAllowResponse)

/-- `handleAdmissionRequest` with the `RunScriptsSequentially`-failure
denial branch removed; proved extensionally equal to the handler, which
shows that branch is unreachable. -/
def handleAdmissionRequestTotal {S V J R : Type} (sem : Sem S V J R) (env : K8sEnv)
    (unmarshalMeta : Bytes → Except String (Option (List (String × String))))
    (webhookType : String) (st : ScriptRunnerState R) (raw : Bytes) :
    ScriptRunnerState R × AdmissionResponse :=
  match unmarshalMeta raw with
  | Except.error e =>
    (st, { allowed := false, message := some ("failed to parse object metadata: " ++ e),
           patchType := none, patch := none })
  | Except.ok annotations =>
    match loadScriptsFromAnnotations env annotations with
    | Except.error e =>
      (st, { allowed := false, message := some ("failed to load scripts: " ++ e),
             patchType := none, patch := none })
    | Except.ok scripts =>
      if scripts.length = 0 then (st, defaultAllowResponse)
      else if webhookType = "validating" then
        let r := RunScriptsSequentially sem st scripts raw
        (r.1, { allowed := true, message := none, patchType := none, patch := none })
      else
        let r := RunScriptsSequentially sem st scripts raw
        let st1 := r.1
        let modifiedJSON := r.2.1
        if modifiedJSON ≠ raw then
          match createJSONPatch sem raw modifiedJSON with
          | Except.error e =>
            (st1, { allowed := false, message := some ("failed to create patch: " ++ e),
                    patchType := some PatchType.JSONPatch, patch := none })
          | Except.ok patchBytes =>
            (st1, { allowed := true, message := none,
                    patchType := some PatchType.JSONPatch, patch := some patchBytes })
        else (st1, defaultAllowResponse)

/-! ### Concrete JSON values and RFC 6902 application

`createJSONPatch`'s change description is consumed by the caller (the
Kubernetes API server) as an RFC 6902 JSON patch.  To settle the
round-trip claim we model JSON values concretely (numbers as integers,
which suffices for the repository's own test inputs) together with the
patch construction at the value level, and RFC 6902/6901 application
(`replace` resolves its JSON-pointer path and requires the target
location to exist; the whole-document pointer is the empty string, and
`"/"` denotes the member named `""` of the root object). -/

inductive Json where
  | null : Json
  | bool : Bool → Json
  | num : Int → Json
  | str : String → Json
  | arr : List Json → Json
  | obj : List (String × Json) → Json

/-- The patch value built by `createJSONPatch`:
`[{"op": "replace", "path": "/", "value": modifiedObj}]`. -/
def createJSONPatchValue (modifiedObj : Json) : Json :=
  Json.arr [Json.obj [("op", Json.str "replace"), ("path", Json.str "/"),
                      ("value", modifiedObj)]]

/-- Modelled from the spec: RFC 6901 pointer parsing (`""` is the whole
document; otherwise the pointer must start with `/` and its tokens are
the `/`-separated segments; the `~` escapes are irrelevant here). -/
def jsonPointerTokens (p : String) : Option (List String) :=
  if p = "" then some []
  else match p.data with
    | '/' :: rest => some (splitStr '/' ⟨rest⟩)
    | _ => none

/-- Decimal array index per RFC 6901 (no leading `+`/`-`). -/
def parseIndex (s : String) : Option Nat :=
  if s.data ≠ [] ∧ s.data.all Char.isDigit then
    some (s.data.foldl (fun n c => n * 10 + (c.toNat - 48)) 0)
  else none

/-- Modelled from the spec: RFC 6902 `replace` at a resolved pointer —
the target location must exist; `replaceAt doc tokens v` returns the
updated document or `none` when the path does not resolve. -/
def replaceAt : Json → List String → Json → Option Json
  | _, [], v => some v
  | Json.obj fields, t :: ts, v =>
    match fields.lookup t with
    | none => none
    | some child =>
      match replaceAt child ts v with
      | none => none
      | some child2 =>
        some (Json.obj (fields.map fun p => if p.1 = t then (t, child2) else p))
  | Json.arr elems, t :: ts, v =>
    match parseIndex t with
    | none => none
    | some i =>
      match elems.get? i with
      | none => none
      | some child =>
        match replaceAt child ts v with
        | none => none
        | some child2 => some (Json.arr (elems.set i child2))
  | _, _ :: _, _ => none

/-- Modelled from the spec: applying one RFC 6902 operation (only
`replace` is ever emitted by `createJSONPatch`). -/
def applyOp (doc : Json) (op : Json) : Option Json :=
  match op with
  | Json.obj fields =>
    match fields.lookup "op", fields.lookup "path", fields.lookup "value" with
    | some (Json.str "replace"), some (Json.str p), some v =>
      match jsonPointerTokens p with
      | none => none
      | some tokens => replaceAt doc tokens v
    | _, _, _ => none
  | _ => none

/-- Modelled from the spec: applying an RFC 6902 patch document (an
array of operations) to a document. -/
def applyPatch (patch : Json) (doc : Json) : Option Json :=
  match patch with
  | Json.arr ops => ops.foldlM applyOp doc
  | _ => none

/-! ### Order facts for the byte-wise string comparison -/

theorem charsLt_cons_iff (a b : Char) (as bs : List Char) :
    charsLt (a :: as) (b :: bs) = true ↔ a < b ∨ (a = b ∧ charsLt as bs = true) := by
  simp only [charsLt]
  by_cases h1 : a < b
  · simp [h1]
  · by_cases h2 : b < a
    · have hne : a ≠ b := fun h => absurd (h ▸ h2) (lt_irrefl a)
      simp [h1, h2, hne]
    · have heq : a = b := le_antisymm (not_lt.mp h2) (not_lt.mp h1)
      simp [h1, h2, heq]

theorem charsLt_irrefl (l : List Char) : charsLt l l = false := by
  induction l with
  | nil => rfl
  | cons a as ih => simp [charsLt, lt_irrefl a, ih]

theorem charsLt_trans {a : List Char} : ∀ {b c : List Char},
    charsLt a b = true → charsLt b c = true → charsLt a c = true := by
  induction a with
  | nil =>
    intro b c h1 h2
    cases b with
    | nil => simp [charsLt] at h1
    | cons y ys =>
      cases c with
      | nil => simp [charsLt] at h2
      | cons z zs => simp [charsLt]
  | cons x xs ih =>
    intro b c h1 h2
    cases b with
    | nil => simp [charsLt] at h1
    | cons y ys =>
      cases c with
      | nil => simp [charsLt] at h2
      | cons z zs =>
        rw [charsLt_cons_iff] at h1 h2 ⊢
        rcases h1 with h1 | ⟨rfl, h1⟩
        · rcases h2 with h2 | ⟨rfl, h2⟩
          · exact Or.inl (lt_trans h1 h2)
          · exact Or.inl h1
        · rcases h2 with h2 | ⟨rfl, h2⟩
          · exact Or.inl h2
          · exact Or.inr ⟨rfl, ih h1 h2⟩

theorem charsLt_eq_of_not {a : List Char} : ∀ {b : List Char},
    charsLt a b = false → charsLt b a = false → a = b := by
  induction a with
  | nil =>
    intro b h1 _
    cases b with
    | nil => rfl
    | cons y ys => simp [charsLt] at h1
  | cons x xs ih =>
    intro b h1 h2
    cases b with
    | nil => simp [charsLt] at h2
    | cons y ys =>
      have e1 : ¬ (x < y ∨ (x = y ∧ charsLt xs ys = true)) := by
        rw [← charsLt_cons_iff]; simp [h1]
      have e2 : ¬ (y < x ∨ (y = x ∧ charsLt ys xs = true)) := by
        rw [← charsLt_cons_iff]; simp [h2]
      push_neg at e1 e2
      have hxy : x = y := le_antisymm e2.1 e1.1
      subst hxy
      have t1 : charsLt xs ys = false := by
        cases ht : charsLt xs ys with
        | false => rfl
        | true => exact absurd ht (e1.2 rfl)
      have t2 : charsLt ys xs = false := by
        cases ht : charsLt ys xs with
        | false => rfl
        | true => exact absurd ht (e2.2 rfl)
      rw [ih t1 t2]

theorem strLt_irrefl (s : String) : strLt s s = false := charsLt_irrefl s.data

theorem strLt_trans {a b c : String} (h1 : strLt a b = true) (h2 : strLt b c = true) :
    strLt a c = true := charsLt_trans h1 h2

theorem strLt_eq_of_not {a b : String} (h1 : strLt a b = false) (h2 : strLt b a = false) :
    a = b := String.ext (charsLt_eq_of_not h1 h2)

theorem strLe_antisymm {a b : String} (h1 : strLe a b) (h2 : strLe b a) : a = b :=
  strLt_eq_of_not h2 h1

instance : IsAntisymm String strLe := ⟨fun _ _ => strLe_antisymm⟩

/-- From `¬ y < x` and `¬ x < m`, conclude `¬ y < m`. -/
theorem strLt_false_trans {x y m : String} (hyx : strLt y x = false)
    (hxm : strLt x m = false) : strLt y m = false := by
  cases hym : strLt y m with
  | false => rfl
  | true =>
    cases hmx : strLt m x with
    | true =>
      have := strLt_trans hym hmx
      rw [this] at hyx
      exact hyx
    | false =>
      have : m = x := strLt_eq_of_not hmx hxm
      subst this
      rw [hym] at hyx
      exact hyx

/-! ### Correctness of the orchestrator's sort -/

theorem innerPass_length (x : String) (l : List String) :
    (innerPass x l).2.length = l.length := by
  induction l generalizing x with
  | nil => rfl
  | cons y ys ih =>
    by_cases h : strLt y x = true <;> simp [innerPass, h, ih]

theorem innerPass_spec (x : String) (l : List String) :
    List.Perm ((innerPass x l).1 :: (innerPass x l).2) (x :: l) ∧
    strLt x (innerPass x l).1 = false ∧
    (∀ z ∈ (innerPass x l).2, strLt z (innerPass x l).1 = false) := by
  induction l generalizing x with
  | nil => exact ⟨List.Perm.refl _, strLt_irrefl x, by intro z hz; cases hz⟩
  | cons y ys ih =>
    by_cases h : strLt y x = true
    · obtain ⟨p, hmy, hall⟩ := ih y
      have hxm : strLt x (innerPass y ys).1 = false := by
        cases hb : strLt x (innerPass y ys).1 with
        | false => rfl
        | true =>
          have := strLt_trans h hb
          rw [this] at hmy
          cases hmy
      simp only [innerPass, h, if_true]
      refine ⟨?_, hxm, ?_⟩
      · exact (List.Perm.swap x (innerPass y ys).1 (innerPass y ys).2).trans (p.cons x)
      · intro z hz
        rcases List.mem_cons.mp hz with rfl | hz
        · exact hxm
        · exact hall z hz
    · obtain ⟨p, hmx, hall⟩ := ih x
      have h0 : strLt y x = false := by
        cases hb : strLt y x with
        | false => rfl
        | true => exact absurd hb h
      simp only [innerPass, h0]
      refine ⟨?_, hmx, ?_⟩
      · exact (List.Perm.swap y (innerPass x ys).1 (innerPass x ys).2).trans
          ((p.cons y).trans (List.Perm.swap x y ys))
      · intro z hz
        rcases List.mem_cons.mp hz with rfl | hz
        · exact strLt_false_trans h0 hmx
        · exact hall z hz

theorem selSortFuel_sorted_perm : ∀ (fuel : Nat) (l : List String), l.length ≤ fuel →
    List.Sorted strLe (selSortFuel fuel l) ∧ List.Perm (selSortFuel fuel l) l := by
  intro fuel
  induction fuel with
  | zero =>
    intro l hl
    have : l = [] := List.eq_nil_of_length_eq_zero (Nat.le_zero.mp hl)
    subst this
    exact ⟨List.sorted_nil, List.Perm.refl _⟩
  | succ n ih =>
    intro l hl
    cases l with
    | nil => exact ⟨List.sorted_nil, List.Perm.refl _⟩
    | cons x xs =>
      obtain ⟨p, _, hall⟩ := innerPass_spec x xs
      have hlen : (innerPass x xs).2.length = xs.length := innerPass_length x xs
      have hrec := ih (innerPass x xs).2
        (by rw [hlen]; exact Nat.succ_le_succ_iff.mp hl)
      refine ⟨?_, ?_⟩
      · refine List.Pairwise.cons ?_ hrec.1
        intro z hz
        exact hall z (hrec.2.mem_iff.mp hz)
      · exact ((hrec.2.cons (innerPass x xs).1).trans p)

theorem sortStrings_sorted (l : List String) : List.Sorted strLe (sortStrings l) :=
  (selSortFuel_sorted_perm l.length l (Nat.le_refl _)).1

theorem sortStrings_perm (l : List String) : List.Perm (sortStrings l) l :=
  (selSortFuel_sorted_perm l.length l (Nat.le_refl _)).2

/-- Sorting is invariant under permutation of the input. -/
theorem sortStrings_eq_of_perm {l1 l2 : List String} (p : List.Perm l1 l2) :
    sortStrings l1 = sortStrings l2 :=
  List.eq_of_perm_of_sorted
    (((sortStrings_perm l1).trans p).trans (sortStrings_perm l2).symm)
    (sortStrings_sorted l1) (sortStrings_sorted l2)

/-! ### Association-list facts (Go maps modulo iteration order) -/

theorem lookup_mem {l : List (String × String)} {k v : String}
    (h : l.lookup k = some v) : (k, v) ∈ l := by
  induction l with
  | nil => cases h
  | cons p rest ih =>
    cases hp : (k == p.1) with
    | true =>
      simp only [List.lookup, hp] at h
      cases h
      have hk : k = p.1 := eq_of_beq hp
      exact List.mem_cons.mpr (Or.inl (by rw [hk]))
    | false =>
      simp only [List.lookup, hp] at h
      exact List.mem_cons_of_mem _ (ih h)

theorem lookup_of_mem {l : List (String × String)} {k v : String}
    (nd : (l.map Prod.fst).Nodup) (h : (k, v) ∈ l) : l.lookup k = some v := by
  induction l with
  | nil => cases h
  | cons p rest ih =>
    rcases List.mem_cons.mp h with rfl | hmem
    · simp [List.lookup]
    · have hk : (k == p.1) = false := by
        rw [beq_eq_false_iff_ne]
        intro hkp
        have hin : k ∈ rest.map Prod.fst := List.mem_map.mpr ⟨(k, v), hmem, rfl⟩
        rw [List.map_cons, List.nodup_cons] at nd
        exact nd.1 (hkp ▸ hin)
      simp only [List.lookup, hk]
      exact ih (by rw [List.map_cons, List.nodup_cons] at nd; exact nd.2) hmem

theorem lookup_perm {l1 l2 : List (String × String)}
    (nd : (l1.map Prod.fst).Nodup) (p : List.Perm l1 l2) (k : String) :
    l1.lookup k = l2.lookup k := by
  have nd2 : (l2.map Prod.fst).Nodup := ((p.map Prod.fst).nodup_iff).mp nd
  cases h : l1.lookup k with
  | some v => rw [lookup_of_mem nd2 (p.mem_iff.mp (lookup_mem h))]
  | none =>
    cases h2 : l2.lookup k with
    | none => rfl
    | some v =>
      have := lookup_of_mem nd (p.mem_iff.mpr (lookup_mem h2))
      rw [this] at h
      cases h

/-! ### Sandbox isolation: the result of `RunScript` is state-independent -/

theorem RunScript_snd_eq {S V J R : Type} (sem : Sem S V J R) (st : ScriptRunnerState R)
    (n c : String) (b : Bytes) :
    (RunScript sem st n c b).2 = runScriptPure sem n c b := by
  unfold RunScript runScriptPure
  dsimp only
  cases hu : sem.unmarshal b with
  | error e => rfl
  | ok obj =>
    dsimp only
    cases ht : sem.toLua (sem.loadModules sem.newState) obj with
    | error e => rfl
    | ok Lv =>
      dsimp only
      cases hd : sem.doString (sem.setGlobal Lv.1 "object" Lv.2) c with
      | error e => rfl
      | ok L3 =>
        dsimp only
        cases hf : sem.fromLua L3 (sem.getGlobal L3 "object") with
        | error e => rfl
        | ok g => rfl

/-! ### The orchestrator loop versus state-free chaining -/

theorem runDocs_cons {S V J R : Type} (sem : Sem S V J R) (get : String → String)
    (n : String) (ns : List String) (b : Bytes) :
    runDocs sem get (n :: ns) b =
      match runScriptPure sem n (get n) b with
      | Except.error _ => runDocs sem get ns b
      | Except.ok r => runDocs sem get ns r := rfl

theorem runLoop_cons {S V J R : Type} (sem : Sem S V J R) (get : String → String)
    (st : ScriptRunnerState R) (n : String) (ns : List String) (cur : Bytes) :
    runLoop sem get st (n :: ns) cur =
      match RunScript sem st n (get n) cur with
      | (st1, Except.error _) =>
        let rest := runLoop sem get st1 ns cur
        (rest.1, rest.2.1, rest.2.2.1, rest.2.2.2 + 1)
      | (st1, Except.ok res) =>
        let rest := runLoop sem get st1 ns res
        (rest.1, rest.2.1, rest.2.2.1 + 1, rest.2.2.2) := rfl

theorem runLoop_doc {S V J R : Type} (sem : Sem S V J R) (get : String → String) :
    ∀ (ns : List String) (st : ScriptRunnerState R) (cur : Bytes),
    (runLoop sem get st ns cur).2.1 = runDocs sem get ns cur := by
  intro ns
  induction ns with
  | nil => intro st cur; rfl
  | cons n rest ih =>
    intro st cur
    have hsnd := RunScript_snd_eq sem st n (get n) cur
    rw [runLoop_cons, runDocs_cons, ← hsnd]
    cases hr : RunScript sem st n (get n) cur with
    | mk st1 res =>
      cases res with
      | error e => exact ih st1 cur
      | ok r => exact ih st1 r

theorem runLoop_counts {S V J R : Type} (sem : Sem S V J R) (get : String → String) :
    ∀ (ns : List String) (st : ScriptRunnerState R) (cur : Bytes),
    (runLoop sem get st ns cur).2.2.1 + (runLoop sem get st ns cur).2.2.2 = ns.length := by
  intro ns
  induction ns with
  | nil => intro st cur; rfl
  | cons n rest ih =>
    intro st cur
    rw [runLoop_cons]
    cases hr : RunScript sem st n (get n) cur with
    | mk st1 res =>
      cases res with
      | error e =>
        have := ih st1 cur
        dsimp only
        simp only [List.length_cons]
        omega
      | ok r =>
        have := ih st1 r
        dsimp only
        simp only [List.length_cons]
        omega

theorem fedDoc_zero {S V J R : Type} (sem : Sem S V J R) (get : String → String)
    (names : List String) (b : Bytes) : fedDoc sem get names b 0 = b := rfl

theorem fedDoc_last {S V J R : Type} (sem : Sem S V J R) (get : String → String)
    (names : List String) (b : Bytes) :
    fedDoc sem get names b names.length = runDocs sem get names b := by
  unfold fedDoc
  rw [List.take_length]

theorem runDocs_append {S V J R : Type} (sem : Sem S V J R) (get : String → String) :
    ∀ (l1 l2 : List String) (b : Bytes),
    runDocs sem get (l1 ++ l2) b = runDocs sem get l2 (runDocs sem get l1 b) := by
  intro l1
  induction l1 with
  | nil => intro l2 b; rfl
  | cons n rest ih =>
    intro l2 b
    rw [List.cons_append, runDocs_cons, runDocs_cons]
    cases hr : runScriptPure sem n (get n) b with
    | error e => exact ih l2 b
    | ok r => exact ih l2 r

theorem fedDoc_succ {S V J R : Type} (sem : Sem S V J R) (get : String → String)
    (names : List String) (b : Bytes) {i : Nat} (hi : i < names.length) :
    fedDoc sem get names b (i + 1) =
      match runScriptPure sem names[i] (get names[i]) (fedDoc sem get names b i) with
      | Except.error _ => fedDoc sem get names b i
      | Except.ok r => r := by
  unfold fedDoc
  rw [List.take_succ, List.getElem?_eq_getElem hi]
  rw [runDocs_append]
  rfl

theorem fedDoc_const_of_fail {S V J R : Type} (sem : Sem S V J R) (get : String → String)
    (names : List String) (b : Bytes)
    (H : ∀ i (hi : i < names.length),
      ∃ e, runScriptPure sem names[i] (get names[i]) (fedDoc sem get names b i) =
        Except.error e) :
    ∀ i, i ≤ names.length → fedDoc sem get names b i = b := by
  intro i
  induction i with
  | zero => intro _; rfl
  | succ k ih =>
    intro hk
    have hklen : k < names.length := Nat.lt_of_succ_le hk
    obtain ⟨e, he⟩ := H k hklen
    rw [fedDoc_succ sem get names b hklen, he]
    exact ih (le_of_lt hklen)

theorem runScriptPure_ok_anatomy {S V J R : Type} {sem : Sem S V J R}
    {n c : String} {b res : Bytes} (h : runScriptPure sem n c b = Except.ok res) :
    (∃ j, sem.unmarshal b = Except.ok j) ∧ ∃ g, res = sem.marshal g := by
  unfold runScriptPure at h
  dsimp only at h
  cases hu : sem.unmarshal b with
  | error e => rw [hu] at h; cases h
  | ok obj =>
    rw [hu] at h
    dsimp only at h
    refine ⟨⟨obj, rfl⟩, ?_⟩
    cases ht : sem.toLua (sem.loadModules sem.newState) obj with
    | error e => rw [ht] at h; cases h
    | ok Lv =>
      rw [ht] at h
      dsimp only at h
      cases hd : sem.doString (sem.setGlobal Lv.1 "object" Lv.2) c with
      | error e => rw [hd] at h; cases h
      | ok L3 =>
        rw [hd] at h
        dsimp only at h
        cases hf : sem.fromLua L3 (sem.getGlobal L3 "object") with
        | error e => rw [hf] at h; cases h
        | ok g =>
          rw [hf] at h
          dsimp only at h
          cases h
          exact ⟨g, rfl⟩

theorem runDocs_ne_anatomy {S V J R : Type} (sem : Sem S V J R) (get : String → String) :
    ∀ (ns : List String) (b : Bytes), runDocs sem get ns b ≠ b →
    (∃ j, sem.unmarshal b = Except.ok j) ∧ ∃ g, runDocs sem get ns b = sem.marshal g := by
  intro ns
  induction ns with
  | nil => intro b hb; exact absurd rfl hb
  | cons n rest ih =>
    intro b hb
    cases hr : runScriptPure sem n (get n) b with
    | error e =>
      have hred : runDocs sem get (n :: rest) b = runDocs sem get rest b := by
        rw [runDocs_cons, hr]
      rw [hred] at hb ⊢
      exact ih b hb
    | ok r =>
      have hred : runDocs sem get (n :: rest) b = runDocs sem get rest r := by
        rw [runDocs_cons, hr]
      obtain ⟨⟨j, hj⟩, ⟨g, hg⟩⟩ := runScriptPure_ok_anatomy hr
      refine ⟨⟨j, hj⟩, ?_⟩
      rw [hred]
      by_cases hc : runDocs sem get rest r = r
      · rw [hc]; exact ⟨g, hg⟩
      · exact (ih r hc).2

/-! ### Concrete instantiations of the abstract collaborators

Used to witness the theorems on concrete inputs: documents are byte
lists, the interpreter state is the current document, and executing a
script appends the script text's bytes to the document. -/

/-- Append semantics: a script appends its own text to the document. -/
def appendSem : Sem Bytes Bytes Bytes Unit where
  newState := []
  loadModules := id
  unmarshal := Except.ok
  marshal := id
  marshalPatch := id
  toLua := fun L j => Except.ok (L, j)
  setGlobal := fun _ _ v => v
  doString := fun L c => Except.ok (L ++ strToBytes c)
  getGlobal := fun L _ => L
  fromLua := fun _ v => Except.ok v
  registerType := fun r _ => r

/-- Semantics where every script raises a runtime error. -/
def failSem : Sem Bytes Bytes Bytes Unit :=
  { appendSem with doString := fun _ _ => Except.error "boom" }

/-- Semantics where a script whose text is `FAIL` raises and any other
script appends its text. -/
def mixSem : Sem Bytes Bytes Bytes Unit :=
  { appendSem with
    doString := fun L c =>
      if c = "FAIL" then Except.error "fail" else Except.ok (L ++ strToBytes c) }

/-- A ConfigMap store where every fetch fails. -/
def failStore : K8sEnv := ⟨fun _ _ => Except.error "configmaps not found"⟩

/-- A store holding one ConfigMap `default/s1` with script text `x`. -/
def oneStore : K8sEnv :=
  ⟨fun ns nm =>
    if ns = "default" ∧ nm = "s1" then Except.ok [("script.lua", "x")]
    else Except.error "not found"⟩

/-- Metadata parsing that yields a scripts annotation naming `default/missing`. -/
def missingRefMeta : Bytes → Except String (Option (List (String × String))) :=
  fun _ => Except.ok (some [(annotationScripts, "default/missing")])

/-- Metadata parsing that yields a scripts annotation naming `default/s1`. -/
def oneRefMeta : Bytes → Except String (Option (List (String × String))) :=
  fun _ => Except.ok (some [(annotationScripts, "default/s1")])

/-! ### The claims -/

/-- C8: each `RunScript` invocation evaluates in a fresh interpreter
instance, so its returned document depends only on the script name, the
script content and the input document: the result is independent of the
runner state, a prior invocation does not influence a later one, and the
result equals the state-free `runScriptPure`. -/
theorem c8_sandbox_isolation {S V J R : Type} (sem : Sem S V J R) :
    (∀ (st1 st2 : ScriptRunnerState R) (n c : String) (b : Bytes),
      (RunScript sem st1 n c b).2 = (RunScript sem st2 n c b).2) ∧
    (∀ (st : ScriptRunnerState R) (n c : String) (b : Bytes) (n2 c2 : String) (b2 : Bytes),
      (RunScript sem (RunScript sem st n c b).1 n2 c2 b2).2 =
        (RunScript sem st n2 c2 b2).2) ∧
    (∀ (st : ScriptRunnerState R) (n c : String) (b : Bytes),
      (RunScript sem st n c b).2 = runScriptPure sem n c b) := by
  refine ⟨?_, ?_, ?_⟩
  · intro st1 st2 n c b
    rw [RunScript_snd_eq, RunScript_snd_eq]
  · intro st n c b n2 c2 b2
    rw [RunScript_snd_eq, RunScript_snd_eq]
  · intro st n c b
    exact RunScript_snd_eq sem st n c b

/-- C9: `RunScriptsSequentially` always returns a `nil` error, for every
script map and every input byte sequence; consequently the handler's
denial branch for a failed `RunScriptsSequentially` call is dead code:
the handler is extensionally equal to its variant with that branch
removed. -/
theorem c9_runner_error_unreachable {S V J R : Type} (sem : Sem S V J R) :
    (∀ (st : ScriptRunnerState R) (scripts : List (String × String)) (b : Bytes),
      (RunScriptsSequentially sem st scripts b).2.2 = none) ∧
    (∀ (env : K8sEnv) (um : Bytes → Except String (Option (List (String × String))))
      (wt : String) (st : ScriptRunnerState R) (raw : Bytes),
      handleAdmissionRequest sem env um wt st raw =
        handleAdmissionRequestTotal sem env um wt st raw) := by
  refine ⟨fun _ _ _ => rfl, ?_⟩
  intro env um wt st raw
  unfold handleAdmissionRequest handleAdmissionRequestTotal
  cases hum : um raw with
  | error e => rfl
  | ok ann =>
    dsimp only
    cases hl : loadScriptsFromAnnotations env ann with
    | error e => rfl
    | ok scripts =>
      dsimp only
      by_cases hlen : scripts.length = 0
      · simp only [hlen, if_pos]
      · by_cases hwt : wt = "validating"
        · simp [hlen, hwt]
        · simp only [hlen, hwt, if_neg, if_false]
          rfl

/-- C1: for every ordered script sequence and initial document, the
document fed to script `i+1` is script `i`'s output when it succeeded
and script `i`'s own input when it failed; the final document is the end
of that chain (hence the last successful output, or the input when every
script failed); a failing script never aborts the rest (there is exactly
one outcome per input script) and the orchestrator call never returns an
error. -/
theorem c1_fail_open_chaining {S V J R : Type} (sem : Sem S V J R)
    (st : ScriptRunnerState R) (scripts : List (String × String)) (b : Bytes) :
    let names := sortStrings (scripts.map Prod.fst)
    let get := fun n => ((scripts.lookup n).getD "")
    (∀ i (hi : i < names.length),
      fedDoc sem get names b (i + 1) =
        match runScriptPure sem names[i] (get names[i]) (fedDoc sem get names b i) with
        | Except.error _ => fedDoc sem get names b i
        | Except.ok r => r) ∧
    (RunScriptsSequentially sem st scripts b).2.1 = fedDoc sem get names b names.length ∧
    (RunScriptsSequentially sem st scripts b).2.2 = none ∧
    ((∀ i (hi : i < names.length),
      ∃ e, runScriptPure sem names[i] (get names[i]) (fedDoc sem get names b i) =
        Except.error e) →
      (RunScriptsSequentially sem st scripts b).2.1 = b) ∧
    (runOutcomeCounts sem st scripts b).1 + (runOutcomeCounts sem st scripts b).2 =
      scripts.length := by
  intro names get
  have hfin : (RunScriptsSequentially sem st scripts b).2.1 =
      fedDoc sem get names b names.length := by
    rw [fedDoc_last]
    exact runLoop_doc sem get names st b
  refine ⟨?_, hfin, rfl, ?_, ?_⟩
  · intro i hi
    exact fedDoc_succ sem get names b hi
  · intro H
    rw [hfin]
    exact fedDoc_const_of_fail sem get names b H names.length (Nat.le_refl _)
  · have hsum := runLoop_counts sem get names st b
    have hlen : names.length = scripts.length := by
      have := (sortStrings_perm (scripts.map Prod.fst)).length_eq
      rw [List.length_map] at this
      exact this
    rw [← hlen]
    exact hsum

/-- Witness for C1 on concrete inputs: scripts `a` (writes `X`), `b`
(raises) and `c` (writes `Y`): the final document contains both `X` and
`Y`, the call returns a `nil` error, and the outcomes report exactly one
failure; with every script failing, the input comes back unchanged. -/
theorem c1_fail_open_chaining_witness :
    (RunScriptsSequentially mixSem ⟨()⟩ [("a", "X"), ("b", "FAIL"), ("c", "Y")] []).2.1 =
      strToBytes "XY" ∧
    (RunScriptsSequentially mixSem ⟨()⟩ [("a", "X"), ("b", "FAIL"), ("c", "Y")] []).2.2 =
      none ∧
    runOutcomeCounts mixSem ⟨()⟩ [("a", "X"), ("b", "FAIL"), ("c", "Y")] [] = (2, 1) ∧
    (RunScriptsSequentially failSem ⟨()⟩ [("a", "x")] []).2.1 = [] := by
  refine ⟨rfl, (c1_fail_open_chaining mixSem ⟨()⟩ [("a", "X"), ("b", "FAIL"), ("c", "Y")]
    []).2.2.1, rfl, ?_⟩
  exact (c1_fail_open_chaining failSem ⟨()⟩ [("a", "x")] []).2.2.2.1
    (fun i hi => ⟨"script execution failed: boom", by
      have h1 : i = 0 := by
        have h2 : i < 1 := hi
        omega
      subst h1
      rfl⟩)

/-- C2: `RunScriptsSequentially` executes scripts in ascending
lexicographic order of their names — the executed order is sorted and is
a permutation of the input names — and its result does not depend on the
map's iteration order; concretely, scripts named `b`, `a`, `c` that each
append their own name yield `abc`. -/
theorem c2_lexicographic_order {S V J R : Type} (sem : Sem S V J R)
    (st : ScriptRunnerState R) (b : Bytes) (l1 l2 : List (String × String))
    (hperm : List.Perm l1 l2) (hnd : (l1.map Prod.fst).Nodup) :
    RunScriptsSequentially sem st l1 b = RunScriptsSequentially sem st l2 b ∧
    List.Sorted strLe (sortStrings (l1.map Prod.fst)) ∧
    List.Perm (sortStrings (l1.map Prod.fst)) (l1.map Prod.fst) ∧
    (RunScriptsSequentially appendSem ⟨()⟩ [("b", "b"), ("a", "a"), ("c", "c")] []).2.1 =
      strToBytes "abc" := by
  refine ⟨?_, sortStrings_sorted _, sortStrings_perm _, rfl⟩
  have hnames : sortStrings (l1.map Prod.fst) = sortStrings (l2.map Prod.fst) :=
    sortStrings_eq_of_perm (hperm.map Prod.fst)
  have hget : (fun n => ((l1.lookup n).getD "")) = (fun n => ((l2.lookup n).getD "")) :=
    funext fun n => by rw [lookup_perm hnd hperm n]
  unfold RunScriptsSequentially
  rw [hnames, hget]

/-- Witness for C2: the `b`/`a`/`c` map in two iteration orders gives
the same run, and the example value is `abc`. -/
theorem c2_lexicographic_order_witness :
    RunScriptsSequentially appendSem ⟨()⟩ [("b", "b"), ("a", "a"), ("c", "c")] [] =
      RunScriptsSequentially appendSem ⟨()⟩ [("a", "a"), ("c", "c"), ("b", "b")] [] ∧
    (RunScriptsSequentially appendSem ⟨()⟩ [("b", "b"), ("a", "a"), ("c", "c")] []).2.1 =
      strToBytes "abc" :=
  ⟨(c2_lexicographic_order appendSem ⟨()⟩ [] [("b", "b"), ("a", "a"), ("c", "c")]
      [("a", "a"), ("c", "c"), ("b", "b")] (by decide) (by decide)).1,
   (c2_lexicographic_order appendSem ⟨()⟩ [] [("b", "b"), ("a", "a"), ("c", "c")]
      [("a", "a"), ("c", "c"), ("b", "b")] (by decide) (by decide)).2.2.2⟩

/-- C7: when zero scripts are resolved (nil annotations, an annotation
map without the scripts key, or an empty scripts annotation), the
decision is allow with no patch and the pipeline is not invoked (the
runner state is returned untouched); and running an empty script set
through the orchestrator returns the input document with zero outcomes
and no error. -/
theorem c7_zero_scripts {S V J R : Type} (sem : Sem S V J R) (env : K8sEnv)
    (um : Bytes → Except String (Option (List (String × String))))
    (wt : String) (st : ScriptRunnerState R) (raw : Bytes)
    (ann : Option (List (String × String)))
    (hum : um raw = Except.ok ann)
    (hload : loadScriptsFromAnnotations env ann = Except.ok []) :
    handleAdmissionRequest sem env um wt st raw = (st, defaultAllowResponse) ∧
    loadScriptsFromAnnotations env none = Except.ok [] ∧
    (∀ annList : List (String × String), annList.lookup annotationScripts = none →
      loadScriptsFromAnnotations env (some annList) = Except.ok []) ∧
    (∀ annList : List (String × String), annList.lookup annotationScripts = some "" →
      loadScriptsFromAnnotations env (some annList) = Except.ok []) ∧
    RunScriptsSequentially sem st [] raw = (st, raw, none) ∧
    runOutcomeCounts sem st [] raw = (0, 0) := by
  refine ⟨?_, rfl, ?_, ?_, rfl, rfl⟩
  · unfold handleAdmissionRequest
    rw [hum]
    dsimp only
    rw [hload]
    rfl
  · intro annList h
    unfold loadScriptsFromAnnotations
    dsimp only
    rw [h]
  · intro annList h
    unfold loadScriptsFromAnnotations
    dsimp only
    rw [h]
    rfl

/-- Witness for C7: a request whose object has no scripts annotation is
allowed untouched, and the empty orchestrator run is the identity. -/
theorem c7_zero_scripts_witness :
    handleAdmissionRequest appendSem oneStore
        (fun _ => Except.ok (some [("other", "v")])) "mutating" ⟨()⟩ [1, 2] =
      (⟨()⟩, defaultAllowResponse) ∧
    RunScriptsSequentially appendSem ⟨()⟩ [] [1, 2] = (⟨()⟩, [1, 2], none) := by
  have h := c7_zero_scripts appendSem oneStore
    (fun _ => Except.ok (some [("other", "v")])) "mutating" ⟨()⟩ [1, 2]
    (some [("other", "v")]) rfl rfl
  exact ⟨h.1, h.2.2.2.2.1⟩

/-- C5: in validating mode, whenever scripts were resolved and the
pipeline runs — for any interpreter behaviour, including one where every
script fails — the decision is allow and no patch is ever produced. -/
theorem c5_validating_always_allows {S V J R : Type} (sem : Sem S V J R) (env : K8sEnv)
    (um : Bytes → Except String (Option (List (String × String))))
    (st : ScriptRunnerState R) (raw : Bytes)
    (ann : Option (List (String × String))) (scripts : List (String × String))
    (hum : um raw = Except.ok ann)
    (hload : loadScriptsFromAnnotations env ann = Except.ok scripts)
    (hne : scripts ≠ []) :
    (handleAdmissionRequest sem env um "validating" st raw).2 =
      { allowed := true, message := none, patchType := none, patch := none } := by
  unfold handleAdmissionRequest
  rw [hum]
  dsimp only
  rw [hload]
  dsimp only
  have hlen : ¬ scripts.length = 0 := by
    simpa [List.length_eq_zero] using hne
  rw [if_neg hlen, if_pos rfl]

/-- Witness for C5: a resolved script that always fails still yields
allow with no patch in validating mode. -/
theorem c5_validating_always_allows_witness :
    (handleAdmissionRequest failSem oneStore oneRefMeta "validating" ⟨()⟩ []).2 =
      { allowed := true, message := none, patchType := none, patch := none } :=
  c5_validating_always_allows failSem oneStore oneRefMeta ⟨()⟩ []
    (some [(annotationScripts, "default/s1")]) [("default/s1", "x")] rfl rfl
    (by decide)

/-- C6 counterexample: with an unresolvable (well-formed) script
reference, the validating handler also denies — `allowed = false` —
contradicting the claim that validating mode still allows the request. -/
theorem c6_counterexample :
    (handleAdmissionRequest appendSem failStore missingRefMeta "validating" ⟨()⟩ []).2.allowed
      = false := rfl

/-- C6 (amended): when loading the referenced scripts fails, the request
is denied in every mode (mutating and validating alike) with a non-empty
reason, the pipeline never runs (the runner state is untouched) and no
patch is produced. -/
theorem c6_unresolvable_reference_denies {S V J R : Type} (sem : Sem S V J R) (env : K8sEnv)
    (um : Bytes → Except String (Option (List (String × String))))
    (wt : String) (st : ScriptRunnerState R) (raw : Bytes)
    (ann : Option (List (String × String))) (e : String)
    (hum : um raw = Except.ok ann)
    (hload : loadScriptsFromAnnotations env ann = Except.error e) :
    handleAdmissionRequest sem env um wt st raw =
      (st, { allowed := false, message := some ("failed to load scripts: " ++ e),
             patchType := none, patch := none }) ∧
    ("failed to load scripts: " ++ e).length > 0 := by
  constructor
  · unfold handleAdmissionRequest
    rw [hum]
    dsimp only
    rw [hload]
  · rw [String.length_append]
    have h24 : ("failed to load scripts: " : String).length = 24 := rfl
    omega

/-- Witness for C6 (amended): the concrete unresolvable reference is
denied with the concrete non-empty reason, in validating mode. -/
theorem c6_unresolvable_reference_denies_witness :
    handleAdmissionRequest appendSem failStore missingRefMeta "validating" ⟨()⟩ [] =
      (⟨()⟩, { allowed := false,
               message := some ("failed to load scripts: " ++
                 "failed to fetch ConfigMap default/missing: configmaps not found"),
               patchType := none, patch := none }) ∧
    ("failed to load scripts: " ++
      "failed to fetch ConfigMap default/missing: configmaps not found").length > 0 :=
  c6_unresolvable_reference_denies appendSem failStore missingRefMeta "validating" ⟨()⟩ []
    (some [(annotationScripts, "default/missing")])
    "failed to fetch ConfigMap default/missing: configmaps not found" rfl rfl

/-- C3: in mutating mode with at least one resolved script, when the
pipeline's final document is byte-identical to the original the decision
is allow with no patch; when it differs, the decision is allow with
`PatchType = JSONPatch` and the change description produced by
`createJSONPatch` (which always succeeds there, given that
`encoding/json` can re-parse its own marshal output). -/
theorem c3_mutating_patch {S V J R : Type} (sem : Sem S V J R) (env : K8sEnv)
    (um : Bytes → Except String (Option (List (String × String))))
    (st : ScriptRunnerState R) (raw : Bytes)
    (ann : Option (List (String × String))) (scripts : List (String × String))
    (hum : um raw = Except.ok ann)
    (hload : loadScriptsFromAnnotations env ann = Except.ok scripts)
    (hne : scripts ≠ [])
    (hrt : ∀ j : J, ∃ j2, sem.unmarshal (sem.marshal j) = Except.ok j2) :
    ((RunScriptsSequentially sem st scripts raw).2.1 = raw →
      (handleAdmissionRequest sem env um "mutating" st raw).2 = defaultAllowResponse) ∧
    ((RunScriptsSequentially sem st scripts raw).2.1 ≠ raw →
      ∃ pb, createJSONPatch sem raw ((RunScriptsSequentially sem st scripts raw).2.1) =
          Except.ok pb ∧
        (handleAdmissionRequest sem env um "mutating" st raw).2 =
          { allowed := true, message := none, patchType := some PatchType.JSONPatch,
            patch := some pb }) := by
  have hlen : ¬ scripts.length = 0 := by
    simpa [List.length_eq_zero] using hne
  have hrun : RunScriptsSequentially sem st scripts raw =
      ((RunScriptsSequentially sem st scripts raw).1,
       (RunScriptsSequentially sem st scripts raw).2.1, none) := rfl
  constructor
  · intro hfin
    unfold handleAdmissionRequest
    rw [hum]
    dsimp only
    rw [hload]
    dsimp only
    rw [if_neg hlen, if_neg (by decide : ¬ ("mutating" : String) = "validating"), hrun]
    dsimp only
    rw [if_neg (not_not.mpr hfin)]
  · intro hfin
    have hdoc : (RunScriptsSequentially sem st scripts raw).2.1 =
        runDocs sem (fun n => ((scripts.lookup n).getD ""))
          (sortStrings (scripts.map Prod.fst)) raw :=
      runLoop_doc sem (fun n => ((scripts.lookup n).getD ""))
        (sortStrings (scripts.map Prod.fst)) st raw
    obtain ⟨⟨j, hj⟩, ⟨g, hg⟩⟩ := runDocs_ne_anatomy sem
      (fun n => ((scripts.lookup n).getD "")) (sortStrings (scripts.map Prod.fst)) raw
      (hdoc ▸ hfin)
    have hfing : (RunScriptsSequentially sem st scripts raw).2.1 = sem.marshal g := by
      rw [hdoc, hg]
    obtain ⟨j2, hj2⟩ := hrt g
    have hpatch : createJSONPatch sem raw ((RunScriptsSequentially sem st scripts raw).2.1) =
        Except.ok (sem.marshalPatch j2) := by
      unfold createJSONPatch
      rw [hj]
      dsimp only
      rw [hfing, hj2]
    refine ⟨sem.marshalPatch j2, hpatch, ?_⟩
    unfold handleAdmissionRequest
    rw [hum]
    dsimp only
    rw [hload]
    dsimp only
    rw [if_neg hlen, if_neg (by decide : ¬ ("mutating" : String) = "validating"), hrun]
    dsimp only
    rw [if_pos hfin, hpatch]

/-- Witness for C3: one resolved script that appends `x` produces allow
with a JSONPatch change description, and the same pipeline on a script
map whose single script fails leaves the document identical, yielding
allow with no patch. -/
theorem c3_mutating_patch_witness :
    (handleAdmissionRequest appendSem oneStore oneRefMeta "mutating" ⟨()⟩ []).2 =
      { allowed := true, message := none, patchType := some PatchType.JSONPatch,
        patch := some (strToBytes "x") } ∧
    (handleAdmissionRequest failSem oneStore oneRefMeta "mutating" ⟨()⟩ []).2 =
      defaultAllowResponse := by
  constructor
  · obtain ⟨pb, hpb, hresp⟩ := (c3_mutating_patch appendSem oneStore oneRefMeta ⟨()⟩ []
      (some [(annotationScripts, "default/s1")]) [("default/s1", "x")] rfl rfl
      (by decide) (fun j => ⟨j, rfl⟩)).2 (by decide)
    rw [hresp]
    have h2 : createJSONPatch appendSem []
        ((RunScriptsSequentially appendSem ⟨()⟩ [("default/s1", "x")] []).2.1) =
        Except.ok (strToBytes "x") := rfl
    rw [h2] at hpb
    cases hpb
    rfl
  · exact (c3_mutating_patch failSem oneStore oneRefMeta ⟨()⟩ []
      (some [(annotationScripts, "default/s1")]) [("default/s1", "x")] rfl rfl
      (by decide) (fun j => ⟨j, rfl⟩)).1 rfl

/-- The original document of the repository's own `TestCreateJSONPatch`:
`{"name": "test", "value": 1}`. -/
def origDoc : Json := Json.obj [("name", Json.str "test"), ("value", Json.num 1)]

/-- The modified document of the same test:
`{"name": "test", "value": 2, "new": "field"}`. -/
def modDoc : Json :=
  Json.obj [("name", Json.str "test"), ("value", Json.num 2), ("new", Json.str "field")]

/-- C4: the change description emitted by `createJSONPatch` is a
`replace` at path `"/"`.  Under RFC 6902/6901 the whole-document pointer
is `""`, while `"/"` addresses the member named `""` of the root object,
which does not exist — so applying the emitted patch to the original
document fails (and in particular does not yield the modified document),
on the repository's own test input; the same operation with path `""`
does yield the modified document, which is what the code's comment
(replace the entire object) and the spec intend. -/
theorem c4_patch_replace_root_fails :
    applyPatch (createJSONPatchValue modDoc) origDoc = none ∧
    applyPatch (createJSONPatchValue modDoc) origDoc ≠ some modDoc ∧
    jsonPointerTokens "/" = some [""] ∧
    applyPatch (Json.arr [Json.obj [("op", Json.str "replace"), ("path", Json.str ""),
      ("value", modDoc)]]) origDoc = some modDoc := by
  refine ⟨rfl, ?_, rfl, rfl⟩
  intro h
  rw [show applyPatch (createJSONPatchValue modDoc) origDoc = none from rfl] at h
  cases h

/-! ### Lexicographic order of `namespace/name` script names (C10) -/

/-- `leadsB l1 l2` holds when `l1` is an initial segment of `l2`. -/
def leadsB : List Char → List Char → Bool
  | [], _ => true
  | _ :: _, [] => false
  | a :: as, b :: bs => a == b && leadsB as bs

theorem charsLt_append_of_not_leads : ∀ {l1 l2 : List Char}, charsLt l1 l2 = true →
    leadsB l1 l2 = false → ∀ (s1 s2 : List Char), charsLt (l1 ++ s1) (l2 ++ s2) = true := by
  intro l1
  induction l1 with
  | nil => intro l2 h hnp s1 s2; simp [leadsB] at hnp
  | cons x xs ih =>
    intro l2 h hnp s1 s2
    cases l2 with
    | nil => simp [charsLt] at h
    | cons y ys =>
      rw [charsLt_cons_iff] at h
      rcases h with h | ⟨rfl, h⟩
      · rw [List.cons_append, List.cons_append, charsLt_cons_iff]
        exact Or.inl h
      · simp only [leadsB, beq_self_eq_true, Bool.true_and] at hnp
        rw [List.cons_append, List.cons_append, charsLt_cons_iff]
        exact Or.inr ⟨rfl, ih h hnp s1 s2⟩

theorem charsLt_append_left : ∀ (a : List Char) {l1 l2 : List Char},
    charsLt l1 l2 = true → charsLt (a ++ l1) (a ++ l2) = true := by
  intro a
  induction a with
  | nil => intro l1 l2 h; exact h
  | cons c cs ih =>
    intro l1 l2 h
    rw [List.cons_append, List.cons_append, charsLt_cons_iff]
    exact Or.inr ⟨rfl, ih h⟩

/-- C10 counterexample: `"a" < "a-b"` as strings, yet the script named
`a-b/y` is executed before `a/x` — the lexicographically smaller
namespace does not always run first. -/
theorem c10_counterexample :
    strLt "a" "a-b" = true ∧ sortStrings ["a/x", "a-b/y"] = ["a-b/y", "a/x"] :=
  ⟨rfl, rfl⟩

/-- C10 (amended): a script's name is the full `namespace/name` string
of its ConfigMap reference, and execution order is plain byte-wise
lexicographic on that string.  Hence: when neither namespace is an
initial segment of the other, the script with the smaller namespace runs
first regardless of the ConfigMap names; and within one namespace the
ConfigMap names decide the order.  When one namespace is a proper
initial segment of the other, the `/` separator is compared against the
longer namespace's next character, which can make the larger namespace
run first (counterexample above). -/
theorem c10_name_and_namespace_order :
    (∀ (env : K8sEnv) (ns nm content : String) (data : List (String × String)),
      env.getConfigMap ns nm = Except.ok data →
      data.lookup "script.lua" = some content →
      content ≠ "" →
      splitStr ',' (ns ++ "/" ++ nm) = [ns ++ "/" ++ nm] →
      trimStr (ns ++ "/" ++ nm) = ns ++ "/" ++ nm →
      (ns ++ "/" ++ nm) ≠ "" →
      splitStr '/' (ns ++ "/" ++ nm) = [ns, nm] →
      trimStr ns = ns → trimStr nm = nm →
      loadScriptsFromAnnotations env (some [(annotationScripts, ns ++ "/" ++ nm)]) =
        Except.ok [(ns ++ "/" ++ nm, content)]) ∧
    (∀ ns1 ns2 n1 n2 : String, strLt ns1 ns2 = true → leadsB ns1.data ns2.data = false →
      strLt (ns1 ++ "/" ++ n1) (ns2 ++ "/" ++ n2) = true) ∧
    (∀ ns n1 n2 : String, strLt n1 n2 = true →
      strLt (ns ++ "/" ++ n1) (ns ++ "/" ++ n2) = true) := by
  refine ⟨?_, ?_, ?_⟩
  · intro env ns nm content data hcm hlk hcne hsplitc htrim hne hsplit htns htnm
    unfold loadScriptsFromAnnotations
    dsimp only
    rw [show List.lookup annotationScripts [(annotationScripts, ns ++ "/" ++ nm)] =
      some (ns ++ "/" ++ nm) by simp [List.lookup]]
    dsimp only
    rw [hsplitc]
    unfold loadRefs
    rw [htrim, if_neg hne, hsplit]
    dsimp only
    rw [htns, htnm, hcm]
    dsimp only
    rw [hlk]
    dsimp only
    rw [if_neg hcne]
    rfl
  · intro ns1 ns2 n1 n2 h hnp
    unfold strLt
    rw [String.data_append, String.data_append, String.data_append, String.data_append]
    rw [List.append_assoc, List.append_assoc]
    exact charsLt_append_of_not_leads h hnp _ _
  · intro ns n1 n2 h
    unfold strLt
    rw [String.data_append, String.data_append, String.data_append, String.data_append]
    exact charsLt_append_left (ns.data ++ ("/" : String).data) h

/-- Witness for C10 (amended): the loader keys `default/s1` by its full
reference; `aa/z` runs before `ab/a` (distinct, non-overlapping
namespaces); `ns/a` runs before `ns/b` (same namespace). -/
theorem c10_name_and_namespace_order_witness :
    loadScriptsFromAnnotations oneStore
        (some [(annotationScripts, "default" ++ "/" ++ "s1")]) =
      Except.ok [("default" ++ "/" ++ "s1", "x")] ∧
    strLt ("aa" ++ "/" ++ "z") ("ab" ++ "/" ++ "a") = true ∧
    strLt ("ns" ++ "/" ++ "a") ("ns" ++ "/" ++ "b") = true := by
  refine ⟨?_, ?_, ?_⟩
  · exact c10_name_and_namespace_order.1 oneStore "default" "s1" "x"
      [("script.lua", "x")] rfl rfl (by decide) rfl rfl (by decide) rfl rfl rfl
  · exact c10_name_and_namespace_order.2.1 "aa" "ab" "z" "a" rfl rfl
  · exact c10_name_and_namespace_order.2.2 "ns" "a" "b" rfl

end GluaWebhook
